import Mathlib

/-!
Shallow embedding of the SymbolTracker-MCP symbol registry
(`src/index.ts` registry document: class `SymbolRegistry` with persistence
and file tracking, which is the variant the tools and the refresh
orchestrator rely on) and of the reference-scan loop of
`src/tools/findUsages.ts`.

Modelling conventions:
* JavaScript objects with optional keys distinguish three states per key:
  the key may be absent, present with value `undefined`, or present with a
  value.  Object spread `{...a, ...b}` copies every own key of `b`,
  including keys whose value is `undefined`.  The three states are modelled
  by `JsField`.
* Machine timestamps (`Date.now()`, `stats.mtimeMs`) are modelled as `Nat`.
* The filesystem is modelled as a function `FS : String → Option Nat`
  giving the mtime of an existing path (`fs.existsSync` = `isSome`,
  `fs.statSync(..).mtimeMs` = the value).
* All paths handled by the model are taken to be already-absolute and
  normalized, so Node's `path.resolve` is the identity on them
  (`resolvePath`).
* Disk persistence (`persistToDisk`) serializes the whole state; only the
  number of disk writes is observable in the model, recorded in the
  `writes` instrumentation counter of the registry state.
* The TS field `exists` of `FileTrackingInfo` is a Lean keyword and is
  rendered as `existsFlag`.
-/

/-- Three-state model of one optional key of a JavaScript object:
absent key, key present with value `undefined`, key present with a value. -/
inductive JsField (α : Type) where
  | absent : JsField α
  | undef : JsField α
  | val : α → JsField α
deriving DecidableEq, Repr

/-- The value a JavaScript property read yields: both an absent key and a
key holding `undefined` read as `undefined` (`none`). -/
def JsField.toVal {α : Type} : JsField α → Option α
  | .absent => none
  | .undef => none
  | .val v => some v

/-- Effect of object spread `{...existing, ...incoming}` on one key:
any own key of the incoming object (even one holding `undefined`)
overwrites; only an absent key leaves the existing entry in place. -/
def JsField.spread {α : Type} (existing incoming : JsField α) : JsField α :=
  match incoming with
  | .absent => existing
  | x => x

/-- JavaScript truthiness of a possibly-missing boolean property
(`undefined` is falsy). -/
def JsField.truthy : JsField Bool → Bool
  | .val b => b
  | _ => false

/-- A key written as `key: e` where `e : T | undefined`: the key is present,
holding `undefined` exactly when `e` is. -/
def JsField.ofOption {α : Type} : Option α → JsField α
  | none => .undef
  | some v => .val v

/-- Case-folding used to model `String.prototype.toLowerCase` (per
character, which agrees with JS on the ASCII identifiers at play). -/
def jsToLower (s : String) : String :=
  ⟨s.data.map Char.toLower⟩

/-- Helper for `jsIncludes`: does `sub` occur as a contiguous run in `h`? -/
def listContainsSub (h sub : List Char) : Bool :=
  if sub.isPrefixOf h then true
  else
    match h with
    | [] => false
    | _ :: t => listContainsSub t sub

/-- Model of `hay.includes(sub)` for JavaScript strings. -/
def jsIncludes (hay sub : String) : Bool :=
  listContainsSub hay.data sub.data

/-- Model of `s.startsWith(pre)` for JavaScript strings. -/
def jsStartsWith (s pre : String) : Bool :=
  pre.data.isPrefixOf s.data

/-- Model of `e || dflt` for a possibly-undefined string `e` (both
`undefined` and the empty string are falsy). -/
def jsOrStr (o : Option String) (dflt : String) : String :=
  match o with
  | some s => if s == "" then dflt else s
  | none => dflt

/-- Interpolation of a possibly-undefined string into a template literal:
`undefined` prints as the text "undefined". -/
def jsShowOpt (o : Option String) : String :=
  o.getD "undefined"

/-- Model of `path.resolve` under the convention that every path in the
model is already absolute and normalized. -/
def resolvePath (p : String) : String := p

/-- Mtime-map model of the filesystem (see module docstring). -/
def FS : Type := String → Option Nat

/-- Runtime value of the TS enum `SymbolType` (the query side uses the
closed enum; stored symbols keep the raw string so that states loaded from
a persisted JSON file with unknown kind strings are representable). -/
inductive SymbolType where
  | FUNCTION | CLASS | METHOD | PROPERTY | INTERFACE | TYPE | ROUTE | VARIABLE
deriving DecidableEq, Repr

/-- String value of each `SymbolType` enum member. -/
def SymbolType.toStr : SymbolType → String
  | .FUNCTION => "function"
  | .CLASS => "class"
  | .METHOD => "method"
  | .PROPERTY => "property"
  | .INTERFACE => "interface"
  | .TYPE => "type"
  | .ROUTE => "route"
  | .VARIABLE => "variable"

/-- `location` entries of `SymbolInfo` (never produced by the registry but
part of the interface). -/
structure Location where
  line : Nat
  column : Nat
deriving DecidableEq, Repr

/-- The `metadata: Record<string, any>` bags actually constructed by the
registry only ever carry these keys. -/
structure Metadata where
  visibility : JsField String := .absent
  isComponent : JsField Bool := .absent
  method : JsField String := .absent
  path : JsField String := .absent
  handler : JsField String := .absent
deriving DecidableEq, Repr

/-- `SymbolInfo` from `src/index.ts`: required `symbol`, `type`, `file`;
the remaining keys are optional (`JsField`). -/
structure SymbolInfo where
  symbol : String
  type : String
  file : String
  description : JsField String := .absent
  signature : JsField String := .absent
  exported : JsField Bool := .absent
  parentSymbol : JsField String := .absent
  location : JsField Location := .absent
  metadata : JsField Metadata := .absent
deriving DecidableEq, Repr

/-- `FileTrackingInfo` from `src/index.ts` (`exists` renamed, see module
docstring). -/
structure FileTrackingInfo where
  path : String
  lastParsed : Nat
  lastModified : Nat
  existsFlag : Bool
deriving DecidableEq, Repr, Inhabited

/-- State of the `SymbolRegistry` class (fields `symbols`, `files`,
`lastFullRefresh`), extended with the `writes` instrumentation counter
that records how many times `persistToDisk` has run. -/
structure SymbolRegistry where
  symbols : List SymbolInfo
  files : List FileTrackingInfo
  lastFullRefresh : Nat
  writes : Nat
deriving DecidableEq, Repr

/-- A fresh registry (`new SymbolRegistry()`), zero disk writes so far. -/
def emptyRegistry : SymbolRegistry :=
  { symbols := [], files := [], lastFullRefresh := 0, writes := 0 }

/-- `FunctionDoc` from `src/types.ts`. -/
structure FunctionDoc where
  name : String
  params : List String
  returnType : Option String := none
  description : Option String := none
  exported : Bool
deriving DecidableEq, Repr

/-- `MethodDoc` from `src/types.ts`. -/
structure MethodDoc where
  name : String
  params : List String
  returnType : Option String := none
  description : Option String := none
  visibility : Option String := none
deriving DecidableEq, Repr

/-- `PropertyDoc` from `src/types.ts`. -/
structure PropertyDoc where
  name : String
  type : Option String := none
  description : Option String := none
  visibility : Option String := none
deriving DecidableEq, Repr

/-- `ClassDoc` from `src/types.ts`. -/
structure ClassDoc where
  name : String
  description : Option String := none
  exported : Bool
  methods : List MethodDoc
  properties : List PropertyDoc
  isComponent : Option Bool := none
deriving DecidableEq, Repr

/-- `InterfaceDoc` from `src/types.ts`. -/
structure InterfaceDoc where
  name : String
  description : Option String := none
  exported : Bool
  properties : List PropertyDoc
  methods : List MethodDoc
deriving DecidableEq, Repr

/-- `TypeAliasDoc` from `src/types.ts`. -/
structure TypeAliasDoc where
  name : String
  type : String
  description : Option String := none
  exported : Bool
deriving DecidableEq, Repr

/-- `RouteDoc` from `src/types.ts`. -/
structure RouteDoc where
  method : Option String := none
  path : Option String := none
  handler : Option String := none
  description : Option String := none
deriving DecidableEq, Repr

/-- `FileDocResponse` from `src/types.ts` (an absent array key and a
present-but-undefined one are both skipped by the `if (fileDoc.xs)`
truthiness guards, so `Option` suffices here; a present empty array is
truthy but contributes nothing, which coincides with `some []`). -/
structure FileDocResponse where
  filePath : String
  functions : Option (List FunctionDoc) := none
  classes : Option (List ClassDoc) := none
  interfaces : Option (List InterfaceDoc) := none
  typeAliases : Option (List TypeAliasDoc) := none
  routes : Option (List RouteDoc) := none
deriving DecidableEq, Repr

/-- The duplicate check of `registerSymbol`: stored entry `s` matches the
incoming `symbol` when name, type, file and `parentSymbol` agree, the
latter compared as JS property reads (`===` on possibly-undefined
values). -/
def sameIdentity (s symbol : SymbolInfo) : Bool :=
  s.symbol == symbol.symbol &&
  s.type == symbol.type &&
  s.file == symbol.file &&
  s.parentSymbol.toVal == symbol.parentSymbol.toVal

/-- `{...existing, ...symbol}` of `registerSymbol`: the required keys come
from the incoming object; each optional key spreads per `JsField.spread`. -/
def SymbolInfo.merge (existing incoming : SymbolInfo) : SymbolInfo where
  symbol := incoming.symbol
  type := incoming.type
  file := incoming.file
  description := existing.description.spread incoming.description
  signature := existing.signature.spread incoming.signature
  exported := existing.exported.spread incoming.exported
  parentSymbol := existing.parentSymbol.spread incoming.parentSymbol
  location := existing.location.spread incoming.location
  metadata := existing.metadata.spread incoming.metadata

/-- List-level body of `registerSymbol`: `findIndex` over the stored
symbols, overwrite the first identity match with the spread-merge, else
push.  (The `getD` default is never used: the index came from
`findIdx?`.) -/
def upsertSymbol (symbols : List SymbolInfo) (symbol : SymbolInfo) : List SymbolInfo :=
  match symbols.findIdx? (fun s => sameIdentity s symbol) with
  | some existingIndex =>
      symbols.set existingIndex (SymbolInfo.merge (symbols.getD existingIndex symbol) symbol)
  | none => symbols ++ [symbol]

/-- `SymbolRegistry.registerSymbol`: upsert, then `persistToDisk()` (one
disk write, counted). -/
def registerSymbol (r : SymbolRegistry) (symbol : SymbolInfo) : SymbolRegistry :=
  { r with symbols := upsertSymbol r.symbols symbol, writes := r.writes + 1 }

/-- The `lastModified` computation of `trackFile`: the on-disk mtime when
`existsFlag` holds and the file is present, the current time otherwise. -/
def trackMtime (fsys : FS) (now : Nat) (absolutePath : String) (existsFlag : Bool) : Nat :=
  match fsys absolutePath with
  | some m => if existsFlag then m else now
  | none => now

/-- The files-array update of `trackFile`: overwrite the timestamps and
existence flag of the first tracking record with this path, or push a new
record.  (The `getD` default is never used: the index came from
`findIdx?`.) -/
def updTrack (absolutePath : String) (now lastModified : Nat) (existsFlag : Bool)
    (files : List FileTrackingInfo) : List FileTrackingInfo :=
  match files.findIdx? (fun f => f.path == absolutePath) with
  | some existingIndex =>
      files.set existingIndex
        { files.getD existingIndex default with
            lastParsed := now, lastModified := lastModified, existsFlag := existsFlag }
  | none =>
      files ++ [{ path := absolutePath, lastParsed := now,
                  lastModified := lastModified, existsFlag := existsFlag }]

/-- `SymbolRegistry.trackFile`. -/
def trackFile (fsys : FS) (now : Nat) (r : SymbolRegistry) (filePath : String)
    (existsFlag : Bool) : SymbolRegistry :=
  let absolutePath := resolvePath filePath
  let lastModified := trackMtime fsys now absolutePath existsFlag
  { r with files := updTrack absolutePath now lastModified existsFlag r.files }

/-- `SymbolRegistry.fileNeedsRefresh`: `false` for a path missing on disk,
`true` for an untracked path, else mtime strictly newer than the recorded
`lastParsed`. -/
def fileNeedsRefresh (fsys : FS) (r : SymbolRegistry) (filePath : String) : Bool :=
  let absolutePath := resolvePath filePath
  match fsys absolutePath with
  | none => false
  | some fileModified =>
      match r.files.find? (fun f => f.path == absolutePath) with
      | none => true
      | some fileInfo => decide (fileInfo.lastParsed < fileModified)

/-- The `this.files[fileIndex].exists = false` step of
`cleanupDeletedFiles`: mark the first tracking record with this path. -/
def markFileDeleted (files : List FileTrackingInfo) (p : String) : List FileTrackingInfo :=
  match files.findIdx? (fun f => f.path == p) with
  | some fileIndex =>
      files.set fileIndex { files.getD fileIndex default with existsFlag := false }
  | none => files

/-- Body of the `for (const file of deletedFiles)` loop of
`cleanupDeletedFiles`: drop the file's symbols, mark its record. -/
def cleanupStep (acc : SymbolRegistry) (file : FileTrackingInfo) : SymbolRegistry :=
  { acc with
      symbols := acc.symbols.filter (fun s => s.file != file.path),
      files := markFileDeleted acc.files file.path }

/-- `SymbolRegistry.cleanupDeletedFiles`: for every tracked file whose path
is gone from disk, drop its symbols and mark its record; one
`persistToDisk()` at the end. -/
def cleanupDeletedFiles (fsys : FS) (r : SymbolRegistry) : SymbolRegistry :=
  let deletedFiles := r.files.filter (fun f => (fsys f.path).isNone)
  let r := deletedFiles.foldl cleanupStep r
  { r with writes := r.writes + 1 }

/-- Rendering of the `x ? `: ${x}` : ''` signature-suffix ternaries of
`registerFileSymbols` (empty string is falsy). -/
def sigSuffix (o : Option String) : String :=
  match o with
  | some t => if t == "" then "" else ": " ++ t
  | none => ""

/-- The `SymbolInfo` literal registered for one function. -/
def funcSymbol (filePath : String) (func : FunctionDoc) : SymbolInfo where
  symbol := func.name
  type := "function"
  file := filePath
  description := JsField.ofOption func.description
  signature := .val ("(" ++ String.intercalate ", " func.params ++ ")" ++ sigSuffix func.returnType)
  exported := .val func.exported

/-- The `SymbolInfo` literals registered for one class: the class itself,
then its methods, then its properties, in source order. -/
def classSymbols (filePath : String) (cls : ClassDoc) : List SymbolInfo :=
  ({ symbol := cls.name
     type := "class"
     file := filePath
     description := JsField.ofOption cls.description
     exported := .val cls.exported
     metadata := .val { isComponent := JsField.ofOption cls.isComponent } } : SymbolInfo) ::
  (cls.methods.map (fun method =>
    ({ symbol := method.name
       type := "method"
       file := filePath
       description := JsField.ofOption method.description
       signature := .val ("(" ++ String.intercalate ", " method.params ++ ")" ++
         sigSuffix method.returnType)
       parentSymbol := .val cls.name
       exported := .val cls.exported
       metadata := .val { visibility := .val (jsOrStr method.visibility "public") } } : SymbolInfo)) ++
   cls.properties.map (fun prop =>
    ({ symbol := prop.name
       type := "property"
       file := filePath
       description := JsField.ofOption prop.description
       signature := .val (sigSuffix prop.type)
       parentSymbol := .val cls.name
       exported := .val cls.exported
       metadata := .val { visibility := .val (jsOrStr prop.visibility "public") } } : SymbolInfo)))

/-- The `SymbolInfo` literals registered for one interface: the interface
itself, then its properties, then its methods, in source order. -/
def interfaceSymbols (filePath : String) (iface : InterfaceDoc) : List SymbolInfo :=
  ({ symbol := iface.name
     type := "interface"
     file := filePath
     description := JsField.ofOption iface.description
     exported := .val iface.exported } : SymbolInfo) ::
  (iface.properties.map (fun prop =>
    ({ symbol := prop.name
       type := "property"
       file := filePath
       description := JsField.ofOption prop.description
       signature := .val (sigSuffix prop.type)
       parentSymbol := .val iface.name
       exported := .val iface.exported } : SymbolInfo)) ++
   iface.methods.map (fun method =>
    ({ symbol := method.name
       type := "method"
       file := filePath
       description := JsField.ofOption method.description
       signature := .val ("(" ++ String.intercalate ", " method.params ++ ")" ++
         sigSuffix method.returnType)
       parentSymbol := .val iface.name
       exported := .val iface.exported } : SymbolInfo)))

/-- The `SymbolInfo` literal registered for one type alias. -/
def typeAliasSymbol (filePath : String) (typeAlias : TypeAliasDoc) : SymbolInfo where
  symbol := typeAlias.name
  type := "type"
  file := filePath
  description := JsField.ofOption typeAlias.description
  signature := .val (": " ++ typeAlias.type)
  exported := .val typeAlias.exported

/-- The `SymbolInfo` literal registered for one route (no `exported` and no
`parentSymbol` key; `undefined` parts of the template literal print as
"undefined"). -/
def routeSymbolInfo (filePath : String) (route : RouteDoc) : SymbolInfo where
  symbol := jsShowOpt route.method ++ " " ++ jsShowOpt route.path
  type := "route"
  file := filePath
  description := JsField.ofOption route.description
  metadata := .val { method := JsField.ofOption route.method,
                     path := JsField.ofOption route.path,
                     handler := JsField.ofOption route.handler }

/-- The sequence of `registerSymbol` arguments produced by
`registerFileSymbols` for a parsed document, in call order: functions,
classes (each cascading into methods and properties), interfaces (each
cascading into properties and methods), type aliases, routes. -/
def synthSymbols (fileDoc : FileDocResponse) : List SymbolInfo :=
  let filePath := fileDoc.filePath
  (match fileDoc.functions with
   | some functions => functions.map (funcSymbol filePath)
   | none => []) ++
  (match fileDoc.classes with
   | some classes => classes.flatMap (classSymbols filePath)
   | none => []) ++
  (match fileDoc.interfaces with
   | some interfaces => interfaces.flatMap (interfaceSymbols filePath)
   | none => []) ++
  (match fileDoc.typeAliases with
   | some typeAliases => typeAliases.map (typeAliasSymbol filePath)
   | none => []) ++
  (match fileDoc.routes with
   | some routes => routes.map (routeSymbolInfo filePath)
   | none => [])

/-- `SymbolRegistry.registerFileSymbols`: track the file, drop every stored
symbol whose `file` equals the document's path, then run `registerSymbol`
on each synthesized symbol in order (each such call persists; there is no
extra batch-final persist). -/
def registerFileSymbols (fsys : FS) (now : Nat) (r : SymbolRegistry)
    (fileDoc : FileDocResponse) : SymbolRegistry :=
  let filePath := fileDoc.filePath
  let r := trackFile fsys now r filePath true
  let r := { r with symbols := r.symbols.filter (fun s => s.file != filePath) }
  (synthSymbols fileDoc).foldl registerSymbol r

/-- `SymbolSearchQuery` from `src/index.ts`; optional keys as `Option`
(the destructuring defaults of `search` fire on `undefined`). -/
structure SymbolSearchQuery where
  query : String
  type : Option SymbolType := none
  file : Option String := none
  exactMatch : Option Bool := none
  includePrivate : Option Bool := none
  limit : Option Int := none
deriving DecidableEq, Repr

/-- `SymbolSearchResult` from `src/index.ts`. -/
structure SymbolSearchResult where
  results : List SymbolInfo
deriving DecidableEq, Repr

/-- Read of `symbol.metadata?.visibility` (optional chaining:
`undefined` when `metadata` is missing). -/
def metaVisibility (symbol : SymbolInfo) : Option String :=
  match symbol.metadata.toVal with
  | some m => m.visibility.toVal
  | none => none

/-- The filter predicate of `SymbolRegistry.search`, with the destructured
locals as arguments; mirrors the early-return chain of the source
closure. -/
def searchPred (searchTerm : String) (type : Option SymbolType) (file : Option String)
    (exactMatch includePrivate : Bool) (symbol : SymbolInfo) : Bool :=
  if (match type with
      | some t => symbol.type != t.toStr
      | none => false) then false
  else if (match file with
      | some f => f != "" && !(jsIncludes symbol.file f)
      | none => false) then false
  else if (!includePrivate &&
      (metaVisibility symbol == some "private" ||
       jsStartsWith symbol.symbol "_" ||
       jsStartsWith symbol.symbol "#")) then false
  else if exactMatch then symbol.symbol == searchTerm
  else jsIncludes (jsToLower symbol.symbol) (jsToLower searchTerm)

/-- `typePriority[t] || 999` of the search comparator (every table entry is
nonzero, so `||` fires exactly on the lookup miss). -/
def typePriority (t : String) : Nat :=
  if t == "function" then 1
  else if t == "class" then 2
  else if t == "route" then 3
  else if t == "method" then 4
  else if t == "interface" then 5
  else if t == "type" then 6
  else if t == "property" then 7
  else if t == "variable" then 8
  else 999

/-- The sort comparator of `SymbolRegistry.search`. -/
def searchCmp (searchTerm : String) (a b : SymbolInfo) : Int :=
  let aExactMatch := a.symbol == searchTerm
  let bExactMatch := b.symbol == searchTerm
  if aExactMatch && !bExactMatch then -1
  else if !aExactMatch && bExactMatch then 1
  else if a.exported.truthy && !b.exported.truthy then -1
  else if !a.exported.truthy && b.exported.truthy then 1
  else (typePriority a.type : Int) - (typePriority b.type : Int)

/-- `a` may stay before `b` in the stable comparator sort exactly when the
comparator is nonpositive. -/
def searchSortLe (searchTerm : String) (a b : SymbolInfo) : Bool :=
  searchCmp searchTerm a b ≤ 0

/-- The filter stage of `SymbolRegistry.search` (the list the sort and the
limit then act on). -/
def searchFiltered (r : SymbolRegistry) (q : SymbolSearchQuery) : List SymbolInfo :=
  r.symbols.filter
    (searchPred q.query q.type q.file (q.exactMatch.getD false) (q.includePrivate.getD false))

/-- `SymbolRegistry.search`: filter, stable sort by the comparator
(ES2019 `Array.prototype.sort` is stable, modelled by `mergeSort`), then
`slice(0, limit)` when `limit > 0` and the list is longer. -/
def SymbolRegistry.search (r : SymbolRegistry) (q : SymbolSearchQuery) : SymbolSearchResult :=
  let limit : Int := q.limit.getD 20
  let results := searchFiltered r q
  let results := results.mergeSort (searchSortLe q.query)
  let results :=
    if limit > 0 && (results.length : Int) > limit then results.take limit.toNat else results
  { results := results }

/-- `UsageLocation` from `src/tools/findUsages.ts`. -/
structure UsageLocation where
  file : String
  line : Nat
  column : Nat
  snippet : String
  isDefinition : Bool
deriving DecidableEq, Repr

/-- The mutable scan state of `findUsages`: the collected usage records,
the running total-found counter, and the early-stop flag. -/
structure ScanState where
  usages : List UsageLocation
  totalFound : Nat
  limitReached : Bool
deriving DecidableEq, Repr

/-- The 3-line context snippet around line `i`:
`lines.slice(max(0,i-1), min(len-1,i+1)+1)` joined with the two-character
sequence `\n` (the source writes `join('\\n')`). -/
def snippetAt (lines : List String) (i : Nat) : String :=
  let startLine := i - 1
  let endLine := min (lines.length - 1) (i + 1)
  String.intercalate "\\n" ((lines.drop startLine).take (endLine + 1 - startLine))

/-- The inner `while ((match = pattern.exec(line)) !== null)` loop of the
reference scan, over the match columns of one line: every match bumps
`totalFound`; once `usages.length >= maxResults` the flag is set and the
loop breaks without storing the triggering match; otherwise a usage record
is appended. -/
def scanMatches (file : String) (lines : List String) (i : Nat) (maxResults : Nat) :
    List Nat → ScanState → ScanState
  | [], st => st
  | col :: rest, st =>
      let totalFound := st.totalFound + 1
      if st.usages.length ≥ maxResults then
        { st with totalFound := totalFound, limitReached := true }
      else
        scanMatches file lines i maxResults rest
          { usages := st.usages ++
              [{ file := file, line := i + 1, column := col + 1,
                 snippet := snippetAt lines i, isDefinition := false }],
            totalFound := totalFound,
            limitReached := st.limitReached }

/-- The per-line loop of the reference scan; `matcher` yields the
`match.index` values the global word-boundary regex produces on a line,
and the loop breaks as soon as the limit flag is up. -/
def scanLines (file : String) (allLines : List String) (matcher : String → List Nat)
    (maxResults : Nat) : Nat → List String → ScanState → ScanState
  | _, [], st => st
  | i, line :: rest, st =>
      let st := scanMatches file allLines i maxResults (matcher line) st
      if st.limitReached then st
      else scanLines file allLines matcher maxResults (i + 1) rest st

/-- The outer file loop of the reference scan of `findUsages`: the
definition file is skipped when the definition was already handled, a file
whose content is unreadable (`none`) is skipped, and the loop breaks as
soon as the limit flag is up. -/
def scanFiles (symbolFile : String) (includeDefinition : Bool)
    (matcher : String → List Nat) (maxResults : Nat) :
    List (String × Option (List String)) → ScanState → ScanState
  | [], st => st
  | (file, content) :: rest, st =>
      if file == symbolFile && includeDefinition then
        scanFiles symbolFile includeDefinition matcher maxResults rest st
      else
        let st :=
          match content with
          | some lines => scanLines file lines matcher maxResults 0 lines st
          | none => st
        if st.limitReached then st
        else scanFiles symbolFile includeDefinition matcher maxResults rest st

/-- The definition-location loop of `findUsages` (findUsages.ts:125-155):
per line, `defMatcher` yields the `match.index` of the first of the four
heuristic patterns that matches (or `none`); a match sets
`definitionLine := i` and pushes a definition record, and the line loop
then breaks only when `definitionLine > 0` — so a match on line index 0
does NOT break, and a later matching line pushes a second record. -/
def findDefScan (symbolFile : String) (allLines : List String)
    (defMatcher : String → Option Nat) :
    Nat → List String → Nat → List UsageLocation → List UsageLocation
  | _, [], _, usages => usages
  | i, line :: rest, definitionLine, usages =>
      match defMatcher line with
      | some col =>
          let usages' := usages ++
            [{ file := symbolFile, line := i + 1, column := col + 1,
               snippet := snippetAt allLines i, isDefinition := true }]
          if i > 0 then usages'
          else findDefScan symbolFile allLines defMatcher (i + 1) rest i usages'
      | none =>
          if definitionLine > 0 then usages
          else findDefScan symbolFile allLines defMatcher (i + 1) rest definitionLine usages

/-- The usage records stored by the definition step of `findUsages`:
empty unless `includeDefinition` (`input.includeDefinition !== false`) and
the defining file is readable (`some` lines), else the records of
`findDefScan` started at line 0 with `definitionLine = 0`. -/
def defRecords (symbolFile : String) (defLines : Option (List String))
    (includeDefinition : Bool) (defMatcher : String → Option Nat) : List UsageLocation :=
  if includeDefinition then
    match defLines with
    | some lines => findDefScan symbolFile lines defMatcher 0 lines 0 []
    | none => []
  else []

/-- `findUsages` after symbol resolution: the definition step seeds the
usage array, `totalFound` starts at its length, and the reference scan
runs over the candidate files. -/
def findUsagesModel (symbolFile : String) (defLines : Option (List String))
    (includeDefinition : Bool) (defMatcher : String → Option Nat)
    (matcher : String → List Nat) (files : List (String × Option (List String)))
    (maxResults : Nat) : ScanState :=
  let usages := defRecords symbolFile defLines includeDefinition defMatcher
  scanFiles symbolFile includeDefinition matcher maxResults files
    { usages := usages, totalFound := usages.length, limitReached := false }

lemma upsertSymbol_nil (s : SymbolInfo) : upsertSymbol [] s = [s] := rfl

lemma upsertSymbol_cons (x : SymbolInfo) (xs : List SymbolInfo) (s : SymbolInfo) :
    upsertSymbol (x :: xs) s =
      if sameIdentity x s then SymbolInfo.merge x s :: xs else x :: upsertSymbol xs s := by
  unfold upsertSymbol
  rw [List.findIdx?_cons]
  cases h : sameIdentity x s with
  | true => simp [h, List.getD]
  | false =>
      simp only [h, if_false, Bool.false_eq_true, List.findIdx?_succ]
      cases hf : xs.findIdx? (fun t => sameIdentity t s) with
      | none => simp
      | some j => simp [List.getD]

lemma updTrack_nil (a : String) (now lm : Nat) (e : Bool) :
    updTrack a now lm e [] = [{ path := a, lastParsed := now, lastModified := lm, existsFlag := e }] := rfl

lemma updTrack_cons (a : String) (now lm : Nat) (e : Bool) (x : FileTrackingInfo)
    (xs : List FileTrackingInfo) :
    updTrack a now lm e (x :: xs) =
      if x.path == a then
        { x with lastParsed := now, lastModified := lm, existsFlag := e } :: xs
      else x :: updTrack a now lm e xs := by
  unfold updTrack
  rw [List.findIdx?_cons]
  cases h : x.path == a with
  | true => simp [h, List.getD]
  | false =>
      simp only [h, if_false, Bool.false_eq_true, List.findIdx?_succ]
      cases hf : xs.findIdx? (fun f => f.path == a) with
      | none => simp
      | some j => simp [List.getD]

lemma markFileDeleted_nil (p : String) : markFileDeleted [] p = [] := rfl

lemma markFileDeleted_cons (p : String) (x : FileTrackingInfo) (xs : List FileTrackingInfo) :
    markFileDeleted (x :: xs) p =
      if x.path == p then { x with existsFlag := false } :: xs
      else x :: markFileDeleted xs p := by
  unfold markFileDeleted
  rw [List.findIdx?_cons]
  cases h : x.path == p with
  | true => simp [h, List.getD]
  | false =>
      simp only [h, if_false, Bool.false_eq_true, List.findIdx?_succ]
      cases hf : xs.findIdx? (fun f => f.path == p) with
      | none => simp
      | some j => simp [List.getD]

lemma sameIdentity_iff (a b : SymbolInfo) :
    sameIdentity a b = true ↔
      a.symbol = b.symbol ∧ a.type = b.type ∧ a.file = b.file ∧
        a.parentSymbol.toVal = b.parentSymbol.toVal := by
  simp [sameIdentity, Bool.and_eq_true, and_assoc]

lemma sameIdentity_refl (s : SymbolInfo) : sameIdentity s s = true := by
  simp [sameIdentity_iff]

lemma sameIdentity_symm {a b : SymbolInfo} (h : sameIdentity a b = true) :
    sameIdentity b a = true := by
  rw [sameIdentity_iff] at h ⊢
  obtain ⟨h1, h2, h3, h4⟩ := h
  exact ⟨h1.symm, h2.symm, h3.symm, h4.symm⟩

lemma sameIdentity_trans {a b c : SymbolInfo} (hab : sameIdentity a b = true)
    (hbc : sameIdentity b c = true) : sameIdentity a c = true := by
  rw [sameIdentity_iff] at hab hbc ⊢
  obtain ⟨h1, h2, h3, h4⟩ := hab
  obtain ⟨g1, g2, g3, g4⟩ := hbc
  exact ⟨h1.trans g1, h2.trans g2, h3.trans g3, h4.trans g4⟩

lemma merge_file (x s : SymbolInfo) : (SymbolInfo.merge x s).file = s.file := rfl

lemma sameIdentity_file {x s : SymbolInfo} (h : sameIdentity x s = true) : x.file = s.file :=
  ((sameIdentity_iff x s).mp h).2.2.1

lemma spread_toVal {α : Type} (a b : JsField α) :
    (a.spread b).toVal = match b with | .absent => a.toVal | x => x.toVal := by
  cases b <;> rfl

lemma sameIdentity_merge {x s : SymbolInfo} (h : sameIdentity x s = true) :
    sameIdentity (SymbolInfo.merge x s) s = true := by
  rw [sameIdentity_iff] at h ⊢
  refine ⟨rfl, rfl, rfl, ?_⟩
  have h4 := h.2.2.2
  show ((x.parentSymbol).spread s.parentSymbol).toVal = s.parentSymbol.toVal
  cases hp : s.parentSymbol with
  | absent =>
      rw [spread_toVal]
      simpa [hp] using h4
  | undef => simp [spread_toVal]
  | val v => simp [spread_toVal]

lemma filter_upsert_same_file (F : String) (s : SymbolInfo) (hs : s.file = F) :
    ∀ l : List SymbolInfo,
      (upsertSymbol l s).filter (fun x => x.file == F) =
        upsertSymbol (l.filter (fun x => x.file == F)) s := by
  intro l
  induction l with
  | nil => simp [upsertSymbol_nil, hs]
  | cons x xs ih =>
      rw [upsertSymbol_cons]
      cases h : sameIdentity x s with
      | true =>
          have hx : x.file = F := (sameIdentity_file h).trans hs
          have hm : (SymbolInfo.merge x s).file = F := (merge_file x s).trans hs
          simp only [if_true]
          rw [List.filter_cons_of_pos (by simpa using hm),
              List.filter_cons_of_pos (by simpa using hx), upsertSymbol_cons, h]
          simp
      | false =>
          simp only [Bool.false_eq_true, if_false]
          by_cases hx : x.file = F
          · rw [List.filter_cons_of_pos (by simpa using hx),
                List.filter_cons_of_pos (by simpa using hx), upsertSymbol_cons, h]
            simp only [Bool.false_eq_true, if_false, List.cons.injEq, true_and]
            exact ih
          · rw [List.filter_cons_of_neg (by simpa using hx),
                List.filter_cons_of_neg (by simpa using hx)]
            exact ih

lemma filter_upsert_other_file (F : String) (s : SymbolInfo) (hs : s.file = F) :
    ∀ l : List SymbolInfo,
      (upsertSymbol l s).filter (fun x => x.file != F) = l.filter (fun x => x.file != F) := by
  intro l
  induction l with
  | nil =>
      rw [upsertSymbol_nil]
      simp [hs]
  | cons x xs ih =>
      rw [upsertSymbol_cons]
      cases h : sameIdentity x s with
      | true =>
          have hx : x.file = F := (sameIdentity_file h).trans hs
          have hm : (SymbolInfo.merge x s).file = F := (merge_file x s).trans hs
          simp only [if_true]
          rw [List.filter_cons_of_neg (by simp [hm]), List.filter_cons_of_neg (by simp [hx])]
      | false =>
          simp only [Bool.false_eq_true, if_false]
          by_cases hx : x.file = F
          · rw [List.filter_cons_of_neg (by simp [hx]), List.filter_cons_of_neg (by simp [hx])]
            exact ih
          · rw [List.filter_cons_of_pos (by simp [hx]), List.filter_cons_of_pos (by simp [hx])]
            rw [ih]

lemma foldl_filter_same_file (F : String) :
    ∀ (ss : List SymbolInfo) (l : List SymbolInfo), (∀ s ∈ ss, s.file = F) →
      (ss.foldl upsertSymbol l).filter (fun x => x.file == F) =
        ss.foldl upsertSymbol (l.filter (fun x => x.file == F)) := by
  intro ss
  induction ss with
  | nil => intro l _; rfl
  | cons s ss ih =>
      intro l hss
      have hs : s.file = F := hss s (by simp)
      rw [List.foldl_cons, List.foldl_cons, ih _ (fun t ht => hss t (by simp [ht])),
          filter_upsert_same_file F s hs l]

lemma foldl_filter_other_file (F : String) :
    ∀ (ss : List SymbolInfo) (l : List SymbolInfo), (∀ s ∈ ss, s.file = F) →
      (ss.foldl upsertSymbol l).filter (fun x => x.file != F) = l.filter (fun x => x.file != F) := by
  intro ss
  induction ss with
  | nil => intro l _; rfl
  | cons s ss ih =>
      intro l hss
      rw [List.foldl_cons, ih _ (fun t ht => hss t (by simp [ht])),
          filter_upsert_other_file F s (hss s (by simp)) l]

lemma synthSymbols_file (fileDoc : FileDocResponse) :
    ∀ s ∈ synthSymbols fileDoc, s.file = fileDoc.filePath := by
  intro s hs
  unfold synthSymbols at hs
  simp only [List.mem_append] at hs
  rcases hs with ((((h | h) | h) | h) | h)
  · cases hf : fileDoc.functions with
    | none => rw [hf] at h; simp at h
    | some fns =>
        rw [hf] at h
        simp only [List.mem_map] at h
        obtain ⟨f, _, rfl⟩ := h
        rfl
  · cases hf : fileDoc.classes with
    | none => rw [hf] at h; simp at h
    | some cs =>
        rw [hf] at h
        simp only [List.mem_flatMap] at h
        obtain ⟨c, _, hc⟩ := h
        unfold classSymbols at hc
        simp only [List.mem_cons, List.mem_append, List.mem_map] at hc
        rcases hc with rfl | ⟨m, _, rfl⟩ | ⟨p, _, rfl⟩ <;> rfl
  · cases hf : fileDoc.interfaces with
    | none => rw [hf] at h; simp at h
    | some ifs =>
        rw [hf] at h
        simp only [List.mem_flatMap] at h
        obtain ⟨i, _, hi⟩ := h
        unfold interfaceSymbols at hi
        simp only [List.mem_cons, List.mem_append, List.mem_map] at hi
        rcases hi with rfl | ⟨p, _, rfl⟩ | ⟨m, _, rfl⟩ <;> rfl
  · cases hf : fileDoc.typeAliases with
    | none => rw [hf] at h; simp at h
    | some ts =>
        rw [hf] at h
        simp only [List.mem_map] at h
        obtain ⟨t, _, rfl⟩ := h
        rfl
  · cases hf : fileDoc.routes with
    | none => rw [hf] at h; simp at h
    | some rs =>
        rw [hf] at h
        simp only [List.mem_map] at h
        obtain ⟨rt, _, rfl⟩ := h
        rfl

lemma foldl_registerSymbol_symbols (ss : List SymbolInfo) :
    ∀ r : SymbolRegistry, (ss.foldl registerSymbol r).symbols = ss.foldl upsertSymbol r.symbols := by
  induction ss with
  | nil => intro r; rfl
  | cons s ss ih => intro r; rw [List.foldl_cons, List.foldl_cons, ih]; rfl

lemma foldl_registerSymbol_writes (ss : List SymbolInfo) :
    ∀ r : SymbolRegistry, (ss.foldl registerSymbol r).writes = r.writes + ss.length := by
  induction ss with
  | nil => intro r; rfl
  | cons s ss ih =>
      intro r
      rw [List.foldl_cons, ih]
      simp [registerSymbol]
      omega

lemma trackFile_symbols (fsys : FS) (now : Nat) (r : SymbolRegistry) (p : String) (e : Bool) :
    (trackFile fsys now r p e).symbols = r.symbols := rfl

lemma trackFile_writes (fsys : FS) (now : Nat) (r : SymbolRegistry) (p : String) (e : Bool) :
    (trackFile fsys now r p e).writes = r.writes := rfl

lemma registerFileSymbols_symbols (fsys : FS) (now : Nat) (r : SymbolRegistry)
    (fileDoc : FileDocResponse) :
    (registerFileSymbols fsys now r fileDoc).symbols =
      (synthSymbols fileDoc).foldl upsertSymbol
        (r.symbols.filter (fun s => s.file != fileDoc.filePath)) := by
  unfold registerFileSymbols
  rw [foldl_registerSymbol_symbols]
  rfl

/-- Claim C1: `registerFileSymbols` is an exhaustive replace for the
document's file F.  Afterwards the stored symbols with source file F are
exactly the document's synthesized symbols (inserted into an empty store by
the registry's own upsert, which dedups by identity), and the stored
symbols of every other file are untouched.  In particular a file that
previously yielded symbols A and B, re-registered with a document yielding
A and C, ends up holding exactly A and C. -/
theorem C1_registerFileSymbols_exhaustive_replace (fsys : FS) (now : Nat)
    (r : SymbolRegistry) (fileDoc : FileDocResponse) :
    (registerFileSymbols fsys now r fileDoc).symbols.filter
        (fun s => s.file == fileDoc.filePath) =
      (synthSymbols fileDoc).foldl upsertSymbol [] ∧
    (registerFileSymbols fsys now r fileDoc).symbols.filter
        (fun s => s.file != fileDoc.filePath) =
      r.symbols.filter (fun s => s.file != fileDoc.filePath) := by
  constructor
  · rw [registerFileSymbols_symbols,
        foldl_filter_same_file fileDoc.filePath _ _ (synthSymbols_file fileDoc)]
    congr 1
    rw [List.filter_filter]
    rw [List.filter_eq_nil_iff.mpr]
    intro a _
    simp [bne]
  · rw [registerFileSymbols_symbols,
        foldl_filter_other_file fileDoc.filePath _ _ (synthSymbols_file fileDoc),
        List.filter_filter]
    apply List.filter_congr
    intro a _
    simp

/-- Two-function document used to refute claim C5. -/
def docC5 : FileDocResponse :=
  { filePath := "/f.ts",
    functions := some [ { name := "A", params := [], exported := true },
                        { name := "B", params := [], exported := false } ] }

/-- Claim C5, counterexample: registering a parsed document that yields two
symbols performs two disk writes, not the single batch-final write the
claim asserts. -/
theorem C5_counterexample_two_writes :
    (registerFileSymbols (fun p => if p == "/f.ts" then some 5 else none) 3
        emptyRegistry docC5).writes = 2 ∧ (2 : Nat) ≠ 1 := by
  constructor
  · decide
  · decide

/-- Claim C5, amended: `registerFileSymbols` performs exactly one disk
write per registered symbol — each `registerSymbol` call runs
`persistToDisk` — and no additional batch-final write, so a document
yielding n symbols causes n writes (`trackFile` and the symbol-removal
step write nothing). -/
theorem C5_amended_persist_per_symbol (fsys : FS) (now : Nat) (r : SymbolRegistry)
    (fileDoc : FileDocResponse) :
    (registerFileSymbols fsys now r fileDoc).writes = r.writes + (synthSymbols fileDoc).length := by
  unfold registerFileSymbols
  rw [foldl_registerSymbol_writes]
  rfl

lemma upsert_filter_ident (s : SymbolInfo) :
    ∀ l : List SymbolInfo, l.Pairwise (fun a b => sameIdentity a b = false) →
      (upsertSymbol l s).filter (fun x => sameIdentity x s) =
        [match l.find? (fun x => sameIdentity x s) with
         | some old => SymbolInfo.merge old s
         | none => s] := by
  intro l
  induction l with
  | nil =>
      intro _
      rw [upsertSymbol_nil]
      simp [sameIdentity_refl]
  | cons x xs ih =>
      intro hd
      rw [upsertSymbol_cons, List.find?_cons]
      cases h : sameIdentity x s with
      | true =>
          simp only [if_true]
          rw [List.filter_cons_of_pos (by simpa using sameIdentity_merge h)]
          have hxs : ∀ y ∈ xs, sameIdentity y s = false := by
            intro y hy
            by_contra hc
            have hys : sameIdentity y s = true := by
              cases hys : sameIdentity y s with
              | true => rfl
              | false => exact absurd hys hc
            have hxy : sameIdentity x y = true :=
              sameIdentity_trans h (sameIdentity_symm hys)
            have := (List.pairwise_cons.mp hd).1 y hy
            rw [this] at hxy
            exact Bool.false_ne_true hxy
          rw [List.filter_eq_nil_iff.mpr (by intro y hy; simp [hxs y hy])]
      | false =>
          simp only [Bool.false_eq_true, if_false]
          rw [List.filter_cons_of_neg (by simp [h])]
          exact ih (List.pairwise_cons.mp hd).2

lemma upsert_filter_not_ident (s : SymbolInfo) :
    ∀ l : List SymbolInfo,
      (upsertSymbol l s).filter (fun x => !(sameIdentity x s)) =
        l.filter (fun x => !(sameIdentity x s)) := by
  intro l
  induction l with
  | nil =>
      rw [upsertSymbol_nil]
      simp [sameIdentity_refl]
  | cons x xs ih =>
      rw [upsertSymbol_cons]
      cases h : sameIdentity x s with
      | true =>
          simp only [if_true]
          rw [List.filter_cons_of_neg (by simp [sameIdentity_merge h]),
              List.filter_cons_of_neg (by simp [h])]
      | false =>
          simp only [Bool.false_eq_true, if_false]
          rw [List.filter_cons_of_pos (by simp [h]), List.filter_cons_of_pos (by simp [h]), ih]

/-- Symbols used to refute claim C2's merge description: same identity
tuple, first registration carries a description, the second carries an
explicitly `undefined` description (as every call site of `registerSymbol`
does when the parsed entity has no doc comment). -/
def symC2a : SymbolInfo :=
  { symbol := "m", type := "method", file := "/f.ts", parentSymbol := .val "K",
    description := .val "first" }

/-- Second registration for the C2 counterexample. -/
def symC2b : SymbolInfo :=
  { symbol := "m", type := "method", file := "/f.ts", parentSymbol := .val "K",
    description := .undef }

/-- Claim C2, counterexample: re-registering the identity with a
present-but-`undefined` description does NOT leave the existing
description in place — the spread overwrites it with `undefined`.  The
claim's "an incoming field that is undefined leaves the existing value in
place" fails at this input. -/
theorem C2_counterexample_undef_field_overwrites :
    ((registerSymbol (registerSymbol emptyRegistry symC2a) symC2b).symbols.map
        (fun s => s.description)) = [JsField.undef] ∧
      JsField.undef ≠ JsField.val "first" := by
  constructor
  · decide
  · decide

/-- Claim C2, amended: on a store in which no two symbols share an identity
tuple, `registerSymbol` is an upsert keyed on (name, kind, sourceFile,
parent): afterwards exactly one stored symbol has the incoming identity; if
an entry with that identity existed it is replaced by the shallow
spread-merge (incoming PRESENT fields win, including fields explicitly set
to undefined, which overwrite; only fields absent from the incoming object
leave the existing value in place), otherwise the incoming symbol is
appended; all other stored symbols are untouched. -/
theorem C2_amended_registerSymbol_upsert (r : SymbolRegistry) (s : SymbolInfo)
    (hd : r.symbols.Pairwise (fun a b => sameIdentity a b = false)) :
    (registerSymbol r s).symbols.countP (fun x => sameIdentity x s) = 1 ∧
    (registerSymbol r s).symbols.filter (fun x => sameIdentity x s) =
      [match r.symbols.find? (fun x => sameIdentity x s) with
       | some old => SymbolInfo.merge old s
       | none => s] ∧
    (registerSymbol r s).symbols.filter (fun x => !(sameIdentity x s)) =
      r.symbols.filter (fun x => !(sameIdentity x s)) := by
  have h2 := upsert_filter_ident s r.symbols hd
  refine ⟨?_, h2, upsert_filter_not_ident s r.symbols⟩
  rw [List.countP_eq_length_filter]
  show ((upsertSymbol r.symbols s).filter (fun x => sameIdentity x s)).length = 1
  rw [h2]
  rfl

/-- Store and symbol instantiating the C2 amended theorem. -/
def rC2w : SymbolRegistry :=
  { symbols := [symC2a], files := [], lastFullRefresh := 0, writes := 0 }

/-- Claim C2, witness: the amended upsert theorem applied to a concrete
one-symbol store and a matching incoming symbol. -/
theorem C2_amended_registerSymbol_upsert_witness :
    (registerSymbol rC2w symC2b).symbols.countP (fun x => sameIdentity x symC2b) = 1 :=
  (C2_amended_registerSymbol_upsert rC2w symC2b (by simp [rC2w])).1

lemma jsIncludes_nil (s : String) : jsIncludes s "" = true := by
  unfold jsIncludes
  unfold listContainsSub
  simp [List.isPrefixOf]

lemma searchPred_iff (q : SymbolSearchQuery) (s : SymbolInfo) :
    searchPred q.query q.type q.file (q.exactMatch.getD false) (q.includePrivate.getD false) s
        = true ↔
      ((∀ t, q.type = some t → s.type = t.toStr) ∧
       (∀ f, q.file = some f → jsIncludes s.file f = true) ∧
       (q.includePrivate.getD false = false →
          metaVisibility s ≠ some "private" ∧ jsStartsWith s.symbol "_" = false ∧
          jsStartsWith s.symbol "#" = false) ∧
       (if q.exactMatch.getD false then s.symbol = q.query
        else jsIncludes (jsToLower s.symbol) (jsToLower q.query) = true)) := by
  unfold searchPred
  cases ht : q.type with
  | some t =>
      cases hf : q.file with
      | some f =>
          by_cases hfe : f = "" <;>
            cases hip : q.includePrivate.getD false <;>
              cases hem : q.exactMatch.getD false <;>
                simp [hfe, jsIncludes_nil, bne_iff_ne, and_assoc, Bool.and_eq_true,
                  Bool.or_eq_true, not_or, imp_false]
      | none =>
          cases hip : q.includePrivate.getD false <;>
            cases hem : q.exactMatch.getD false <;>
              simp [bne_iff_ne, and_assoc, Bool.and_eq_true, Bool.or_eq_true, not_or,
                imp_false]
  | none =>
      cases hf : q.file with
      | some f =>
          by_cases hfe : f = "" <;>
            cases hip : q.includePrivate.getD false <;>
              cases hem : q.exactMatch.getD false <;>
                simp [hfe, jsIncludes_nil, bne_iff_ne, and_assoc, Bool.and_eq_true,
                  Bool.or_eq_true, not_or, imp_false]
      | none =>
          cases hip : q.includePrivate.getD false <;>
            cases hem : q.exactMatch.getD false <;>
              simp [bne_iff_ne, and_assoc, Bool.and_eq_true, Bool.or_eq_true, not_or,
                imp_false]

/-- Claim C3: a stored symbol survives the filter stage of `search` exactly
when it passes the four filters — kind (if given), file substring (if
given), privacy (unless `includePrivate`: name must not start with an
underscore or a hash and metadata visibility must not be "private"), and
the name match (exact, case-sensitive equality under `exactMatch`,
otherwise lowercased substring containment); and when nothing passes,
`search` returns an empty result set rather than an error (it is a total
function into `SymbolSearchResult`). -/
theorem C3_search_filter_semantics (q : SymbolSearchQuery) (r : SymbolRegistry) :
    (∀ s : SymbolInfo,
        s ∈ searchFiltered r q ↔
          s ∈ r.symbols ∧
          ((∀ t, q.type = some t → s.type = t.toStr) ∧
           (∀ f, q.file = some f → jsIncludes s.file f = true) ∧
           (q.includePrivate.getD false = false →
              metaVisibility s ≠ some "private" ∧ jsStartsWith s.symbol "_" = false ∧
              jsStartsWith s.symbol "#" = false) ∧
           (if q.exactMatch.getD false then s.symbol = q.query
            else jsIncludes (jsToLower s.symbol) (jsToLower q.query) = true))) ∧
    (searchFiltered r q = [] → (SymbolRegistry.search r q).results = []) := by
  constructor
  · intro s
    unfold searchFiltered
    rw [List.mem_filter]
    exact and_congr_right (fun _ => searchPred_iff q s)
  · intro h
    unfold SymbolRegistry.search
    rw [h]
    simp only [List.mergeSort_nil]
    split <;> simp

/-- Claim C3, witness: the theorem applied to the empty store — no symbol
passes and `search` answers with an empty result set. -/
theorem C3_search_filter_semantics_witness :
    (SymbolRegistry.search emptyRegistry { query := "q" }).results = [] :=
  (C3_search_filter_semantics { query := "q" } emptyRegistry).2 rfl

def rankKey (searchTerm : String) (s : SymbolInfo) : Nat :=
  (if s.symbol == searchTerm then 0 else 1) * 2000 +
  (if s.exported.truthy then 0 else 1) * 1000 + typePriority s.type

lemma typePriority_le (t : String) : typePriority t ≤ 999 := by
  unfold typePriority
  repeat' split
  all_goals omega

lemma searchSortLe_eq_rank (t : String) (a b : SymbolInfo) :
    searchSortLe t a b = decide (rankKey t a ≤ rankKey t b) := by
  have ha := typePriority_le a.type
  have hb := typePriority_le b.type
  unfold searchSortLe searchCmp rankKey
  cases hae : a.symbol == t <;> cases hbe : b.symbol == t <;>
    cases hax : a.exported.truthy <;> cases hbx : b.exported.truthy <;>
      simp [hae, hbe, hax, hbx, decide_eq_decide, decide_eq_true_eq, eq_comm] <;> omega


lemma searchSortLe_trans (t : String) (a b c : SymbolInfo) (hab : searchSortLe t a b = true)
    (hbc : searchSortLe t b c = true) : searchSortLe t a c = true := by
  rw [searchSortLe_eq_rank] at hab hbc ⊢
  rw [decide_eq_true_eq] at hab hbc ⊢
  omega

lemma searchSortLe_total (t : String) (a b : SymbolInfo) :
    (searchSortLe t a b || searchSortLe t b a) = true := by
  rw [searchSortLe_eq_rank, searchSortLe_eq_rank]
  rcases Nat.le_total (rankKey t a) (rankKey t b) with h | h <;> simp [h]

lemma mergeSort_rank_stable (t : String) (l : List SymbolInfo) (k : Nat) :
    (l.mergeSort (searchSortLe t)).filter (fun s => rankKey t s == k) =
      l.filter (fun s => rankKey t s == k) := by
  set c := l.filter (fun s => rankKey t s == k) with hc
  have hck : ∀ s ∈ c, rankKey t s = k := by
    intro s hs
    have := (List.mem_filter.mp hs).2
    simpa using this
  have hpair : c.Pairwise (fun a b => searchSortLe t a b = true) := by
    apply List.pairwise_of_forall_mem_list
    intro a haa b hbb
    rw [searchSortLe_eq_rank, decide_eq_true_eq, hck a haa, hck b hbb]
  have hsub : c.Sublist (l.mergeSort (searchSortLe t)) :=
    List.sublist_mergeSort (fun a b d => searchSortLe_trans t a b d)
      (fun a b => searchSortLe_total t a b) hpair (List.filter_sublist l)
  have hperm : ((l.mergeSort (searchSortLe t)).filter (fun s => rankKey t s == k)).Perm c :=
    (List.mergeSort_perm l (searchSortLe t)).filter _
  have hcf : c.filter (fun s => rankKey t s == k) = c := by
    rw [List.filter_eq_self]
    intro a haa
    simp [hck a haa]
  have hsub2 : c.Sublist ((l.mergeSort (searchSortLe t)).filter (fun s => rankKey t s == k)) := by
    have hx := List.Sublist.filter (fun s => rankKey t s == k) hsub
    rwa [hcf] at hx
  exact (hsub2.eq_of_length hperm.length_eq.symm).symm

/-- Claim C4: the search results, extended with the dropped tail, are a
permutation of the filtered symbols sorted so that every kept or dropped
pair respects the claim's rank key (exact-name matches first, then
exported symbols, then ascending kind priority function(1) < class(2) <
route(3) < method(4) < interface(5) < type-alias(6) < property(7) <
variable(8), unknown kinds last at 999); the sort is stable (each
equal-rank class keeps its stored order); and the returned length is the
full match count truncated to `limit` (default 20) exactly when the limit
is positive — a zero or negative limit disables truncation.  Hence
`limit = 2` against 5 matches returns the top 2 by ranking order. -/
theorem C4_search_ranking_and_limit (q : SymbolSearchQuery) (r : SymbolRegistry) :
    ∃ dropped : List SymbolInfo,
      ((SymbolRegistry.search r q).results ++ dropped).Perm (searchFiltered r q) ∧
      ((SymbolRegistry.search r q).results ++ dropped).Pairwise
        (fun a b => rankKey q.query a ≤ rankKey q.query b) ∧
      (∀ k : Nat,
        ((SymbolRegistry.search r q).results ++ dropped).filter
            (fun s => rankKey q.query s == k) =
          (searchFiltered r q).filter (fun s => rankKey q.query s == k)) ∧
      (SymbolRegistry.search r q).results.length =
        (if 0 < q.limit.getD 20 then
          min (q.limit.getD 20).toNat (searchFiltered r q).length
         else (searchFiltered r q).length) := by
  have hsorted := @List.sorted_mergeSort SymbolInfo (searchSortLe q.query)
    (fun a b c => searchSortLe_trans q.query a b c)
    (fun a b => searchSortLe_total q.query a b) (searchFiltered r q)
  have hperm := List.mergeSort_perm (searchFiltered r q) (searchSortLe q.query)
  have hlen := @List.length_mergeSort SymbolInfo (searchSortLe q.query) (searchFiltered r q)
  have hrankpair : ((searchFiltered r q).mergeSort (searchSortLe q.query)).Pairwise
      (fun a b => rankKey q.query a ≤ rankKey q.query b) :=
    hsorted.imp (by intro a b h; rw [searchSortLe_eq_rank, decide_eq_true_eq] at h; exact h)
  refine ⟨if q.limit.getD 20 > 0 &&
      ((((searchFiltered r q).mergeSort (searchSortLe q.query)).length : Int) > q.limit.getD 20)
    then ((searchFiltered r q).mergeSort (searchSortLe q.query)).drop (q.limit.getD 20).toNat
    else [], ?_⟩
  unfold SymbolRegistry.search
  cases hcond : (q.limit.getD 20 > 0 &&
      ((((searchFiltered r q).mergeSort (searchSortLe q.query)).length : Int) >
        q.limit.getD 20) : Bool) with
  | true =>
      simp only [hcond, if_true, List.take_append_drop]
      refine ⟨hperm, hrankpair, fun k => mergeSort_rank_stable q.query (searchFiltered r q) k, ?_⟩
      rw [Bool.and_eq_true] at hcond
      obtain ⟨h1, _⟩ := hcond
      rw [decide_eq_true_eq] at h1
      rw [List.length_take, hlen, if_pos h1]
  | false =>
      simp only [hcond, Bool.false_eq_true, if_false, List.append_nil]
      refine ⟨hperm, hrankpair, fun k => mergeSort_rank_stable q.query (searchFiltered r q) k, ?_⟩
      rw [hlen]
      split
      · rename_i h1
        have h2 : ¬ ((((searchFiltered r q).mergeSort (searchSortLe q.query)).length : Int) >
            q.limit.getD 20) := by
          intro hgt
          rw [Bool.and_eq_false_iff] at hcond
          rcases hcond with hl | hr
          · rw [decide_eq_false_iff_not] at hl
            exact hl h1
          · rw [decide_eq_false_iff_not] at hr
            exact hr hgt
        rw [hlen] at h2
        omega
      · rfl

lemma updTrack_find (a : String) (now lm : Nat) (e : Bool) :
    ∀ l : List FileTrackingInfo,
      (updTrack a now lm e l).find? (fun f => f.path == a) =
        some { path := a, lastParsed := now, lastModified := lm, existsFlag := e } := by
  intro l
  induction l with
  | nil =>
      rw [updTrack_nil]
      simp [List.find?_cons]
  | cons x xs ih =>
      rw [updTrack_cons]
      cases h : x.path == a with
      | true =>
          simp only [if_true]
          rw [List.find?_cons]
          have hpa : x.path = a := by simpa using h
          simp [hpa]
      | false =>
          simp only [Bool.false_eq_true, if_false]
          rw [List.find?_cons]
          simp only [h]
          exact ih

lemma updTrack_not_found (a : String) (now lm : Nat) (e : Bool) :
    ∀ l : List FileTrackingInfo, l.find? (fun f => f.path == a) = none →
      updTrack a now lm e l =
        l ++ [{ path := a, lastParsed := now, lastModified := lm, existsFlag := e }] := by
  intro l
  induction l with
  | nil => intro _; rw [updTrack_nil]; rfl
  | cons x xs ih =>
      intro h
      rw [List.find?_cons] at h
      cases hx : x.path == a with
      | true => rw [hx] at h; simp at h
      | false =>
          rw [hx] at h
          rw [updTrack_cons, hx]
          simp only [Bool.false_eq_true, if_false, List.cons_append, List.cons.injEq, true_and]
          exact ih h

lemma updTrack_filter_ne (a : String) (now lm : Nat) (e : Bool) :
    ∀ l : List FileTrackingInfo,
      (updTrack a now lm e l).filter (fun f => f.path != a) =
        l.filter (fun f => f.path != a) := by
  intro l
  induction l with
  | nil =>
      rw [updTrack_nil]
      simp
  | cons x xs ih =>
      rw [updTrack_cons]
      cases h : x.path == a with
      | true =>
          simp only [if_true]
          have hpa : x.path = a := by simpa using h
          rw [List.filter_cons_of_neg (by simp [hpa]), List.filter_cons_of_neg (by simp [hpa])]
      | false =>
          simp only [Bool.false_eq_true, if_false]
          rw [List.filter_cons_of_pos (by simp [bne, h]), List.filter_cons_of_pos (by simp [bne, h]), ih]

lemma updTrack_length_found (a : String) (now lm : Nat) (e : Bool) :
    ∀ l : List FileTrackingInfo, (l.find? (fun f => f.path == a)).isSome →
      (updTrack a now lm e l).length = l.length := by
  intro l
  induction l with
  | nil => intro h; simp at h
  | cons x xs ih =>
      intro h
      rw [updTrack_cons]
      cases hx : x.path == a with
      | true => simp
      | false =>
          rw [List.find?_cons, hx] at h
          simp only [Bool.false_eq_true, if_false, List.length_cons]
          rw [ih h]

/-- Claim C7, counterexample: tracking a previously untracked path whose
file is present on disk with mtime 5 at current time 100 stores
`lastModified = 5` (the on-disk mtime), not `lastModified = now = 100` as
the claim asserts for the insert branch. -/
theorem C7_counterexample_insert_uses_mtime :
    (trackFile (fun p => if p == "/a.ts" then some 5 else none) 100 emptyRegistry
        "/a.ts" true).files =
      [{ path := "/a.ts", lastParsed := 100, lastModified := 5, existsFlag := true }] ∧
    (5 : Nat) ≠ 100 := by
  constructor
  · decide
  · decide

/-- Claim C7, amended: `trackFile(P, e)` computes a candidate
`lastModified` — the on-disk mtime when `e` is true and the file is
present, the current time `now` otherwise (`trackMtime`) — and then either
pushes a brand-new record `{path, lastParsed := now, lastModified, e}`
when the path is untracked, or overwrites the first record with this path
to carry `lastParsed := now`, that `lastModified`, and `e`, keeping its
path and leaving every other record (and the symbols and the write count)
unchanged. -/
theorem C7_amended_trackFile_update (fsys : FS) (now : Nat) (r : SymbolRegistry)
    (p : String) (e : Bool) :
    (r.files.find? (fun f => f.path == resolvePath p) = none →
      (trackFile fsys now r p e).files =
        r.files ++ [{ path := resolvePath p, lastParsed := now,
                      lastModified := trackMtime fsys now (resolvePath p) e,
                      existsFlag := e }]) ∧
    ((r.files.find? (fun f => f.path == resolvePath p)).isSome →
      (trackFile fsys now r p e).files.find? (fun f => f.path == resolvePath p) =
          some { path := resolvePath p, lastParsed := now,
                 lastModified := trackMtime fsys now (resolvePath p) e,
                 existsFlag := e } ∧
      (trackFile fsys now r p e).files.length = r.files.length) ∧
    (trackFile fsys now r p e).files.filter (fun f => f.path != resolvePath p) =
      r.files.filter (fun f => f.path != resolvePath p) ∧
    (trackFile fsys now r p e).symbols = r.symbols ∧
    (trackFile fsys now r p e).writes = r.writes := by
  refine ⟨?_, ?_, ?_, rfl, rfl⟩
  · intro h
    exact updTrack_not_found (resolvePath p) now (trackMtime fsys now (resolvePath p) e) e
      r.files h
  · intro h
    refine ⟨?_, ?_⟩
    · exact updTrack_find (resolvePath p) now (trackMtime fsys now (resolvePath p) e) e r.files
    · exact updTrack_length_found (resolvePath p) now
        (trackMtime fsys now (resolvePath p) e) e r.files h
  · exact updTrack_filter_ne (resolvePath p) now (trackMtime fsys now (resolvePath p) e) e
      r.files

/-- Registry with one tracked record, instantiating the C7 witness. -/
def rC7w : SymbolRegistry :=
  { symbols := [], lastFullRefresh := 0, writes := 0,
    files := [{ path := "/a.ts", lastParsed := 3, lastModified := 3, existsFlag := true }] }

/-- Claim C7, witness: the amended theorem applied to a concrete tracked
path — the record is overwritten with `lastParsed = now` and the on-disk
mtime. -/
theorem C7_amended_trackFile_update_witness :
    (trackFile (fun p => if p == "/a.ts" then some 7 else none) 50 rC7w "/a.ts" true).files.find?
        (fun f => f.path == resolvePath "/a.ts") =
      some { path := "/a.ts", lastParsed := 50, lastModified := 7, existsFlag := true } :=
  ((C7_amended_trackFile_update (fun p => if p == "/a.ts" then some 7 else none) 50 rC7w
      "/a.ts" true).2.1 (by decide)).1

/-- Claim C6: `fileNeedsRefresh(P)` is false when P is absent from disk;
true when P exists but has no tracking record; otherwise true exactly when
the on-disk mtime is strictly greater than the record's `lastParsed`.  In
particular it is false immediately after `trackFile(P)` while the mtime
(not in the future of the track time) is unchanged, and true once the
mtime advances strictly past the recorded parse time. -/
lemma fileNeedsRefresh_eq (fsys : FS) (r : SymbolRegistry) (p : String) :
    fileNeedsRefresh fsys r p =
      (match fsys (resolvePath p) with
       | none => false
       | some fileModified =>
         match r.files.find? (fun f => f.path == resolvePath p) with
         | none => true
         | some fileInfo => decide (fileInfo.lastParsed < fileModified)) := rfl

theorem C6_fileNeedsRefresh_staleness (fsys : FS) (now : Nat) (r : SymbolRegistry)
    (p : String) :
    (fsys (resolvePath p) = none → fileNeedsRefresh fsys r p = false) ∧
    (∀ m : Nat, fsys (resolvePath p) = some m →
      r.files.find? (fun f => f.path == resolvePath p) = none →
      fileNeedsRefresh fsys r p = true) ∧
    (∀ (m : Nat) (fi : FileTrackingInfo), fsys (resolvePath p) = some m →
      r.files.find? (fun f => f.path == resolvePath p) = some fi →
      (fileNeedsRefresh fsys r p = true ↔ fi.lastParsed < m)) ∧
    (∀ m : Nat, fsys (resolvePath p) = some m → m ≤ now →
      fileNeedsRefresh fsys (trackFile fsys now r p true) p = false) ∧
    (∀ (g : FS) (m : Nat), g (resolvePath p) = some m → now < m →
      fileNeedsRefresh g (trackFile fsys now r p true) p = true) := by
  refine ⟨?_, ?_, ?_, ?_, ?_⟩
  · intro h
    rw [fileNeedsRefresh_eq, h]
  · intro m hm hfind
    rw [fileNeedsRefresh_eq, hm, hfind]
  · intro m fi hm hfind
    rw [fileNeedsRefresh_eq, hm, hfind]
    simp
  · intro m hm hle
    rw [fileNeedsRefresh_eq, hm]
    rw [show (trackFile fsys now r p true).files =
        updTrack (resolvePath p) now (trackMtime fsys now (resolvePath p) true) true r.files
      from rfl]
    rw [updTrack_find]
    simp
    omega
  · intro g m hm hlt
    rw [fileNeedsRefresh_eq, hm]
    rw [show (trackFile fsys now r p true).files =
        updTrack (resolvePath p) now (trackMtime fsys now (resolvePath p) true) true r.files
      from rfl]
    rw [updTrack_find]
    simp
    omega

/-- Tracked registry instantiating the C6 witness. -/
def rC6w : SymbolRegistry :=
  { symbols := [], lastFullRefresh := 0, writes := 0,
    files := [{ path := "/a.ts", lastParsed := 3, lastModified := 3, existsFlag := true }] }

/-- Claim C6, witness: the staleness theorem applied at a concrete store
whose record was parsed at time 3 while the on-disk mtime is 10 — the file
needs a refresh. -/
theorem C6_fileNeedsRefresh_staleness_witness :
    fileNeedsRefresh (fun p => if p == "/a.ts" then some 10 else none) rC6w "/a.ts" = true :=
  ((C6_fileNeedsRefresh_staleness (fun p => if p == "/a.ts" then some 10 else none) 0 rC6w
      "/a.ts").2.2.1 10
    { path := "/a.ts", lastParsed := 3, lastModified := 3, existsFlag := true }
    (by decide) (by decide)).mpr (by decide)

lemma markFileDeleted_eq_map (p : String) :
    ∀ l : List FileTrackingInfo, l.Pairwise (fun a b => a.path ≠ b.path) →
      markFileDeleted l p =
        l.map (fun f => if f.path == p then { f with existsFlag := false } else f) := by
  intro l
  induction l with
  | nil => intro _; rfl
  | cons x xs ih =>
      intro hnd
      rw [markFileDeleted_cons, List.map_cons]
      cases hx : x.path == p with
      | true =>
          simp only [if_true]
          have hxs : ∀ y ∈ xs, (if y.path == p then { y with existsFlag := false } else y) = y := by
            intro y hy
            have hne : y.path ≠ p := by
              have := (List.pairwise_cons.mp hnd).1 y hy
              have hxp : x.path = p := by simpa using hx
              rw [← hxp]
              exact fun hc => this hc.symm
            simp [hne]
          rw [List.map_congr_left hxs, List.map_id']
      | false =>
          simp only [Bool.false_eq_true, if_false]
          rw [ih (List.pairwise_cons.mp hnd).2]

lemma cleanupFold_symbols :
    ∀ (ds : List FileTrackingInfo) (r : SymbolRegistry),
      (ds.foldl cleanupStep r).symbols =
        ds.foldl (fun l file => l.filter (fun s => s.file != file.path)) r.symbols := by
  intro ds
  induction ds with
  | nil => intro r; rfl
  | cons d ds ih => intro r; rw [List.foldl_cons, List.foldl_cons, ih]; rfl

lemma cleanupFold_files :
    ∀ (ds : List FileTrackingInfo) (r : SymbolRegistry),
      (ds.foldl cleanupStep r).files =
        ds.foldl (fun l file => markFileDeleted l file.path) r.files := by
  intro ds
  induction ds with
  | nil => intro r; rfl
  | cons d ds ih => intro r; rw [List.foldl_cons, List.foldl_cons, ih]; rfl

lemma cleanupFold_writes :
    ∀ (ds : List FileTrackingInfo) (r : SymbolRegistry),
      (ds.foldl cleanupStep r).writes = r.writes := by
  intro ds
  induction ds with
  | nil => intro r; rfl
  | cons d ds ih => intro r; rw [List.foldl_cons, ih]; rfl

lemma foldl_filter_symbols :
    ∀ (ds : List FileTrackingInfo) (l : List SymbolInfo),
      ds.foldl (fun l file => l.filter (fun s => s.file != file.path)) l =
        l.filter (fun s => ds.all (fun f => s.file != f.path)) := by
  intro ds
  induction ds with
  | nil =>
      intro l
      simp
  | cons d ds ih =>
      intro l
      rw [List.foldl_cons, ih, List.filter_filter]
      apply List.filter_congr
      intro s _
      rw [List.all_cons, Bool.and_comm]

lemma foldl_mark_files :
    ∀ (ds : List FileTrackingInfo) (l : List FileTrackingInfo),
      l.Pairwise (fun a b => a.path ≠ b.path) →
      ds.foldl (fun l file => markFileDeleted l file.path) l =
        l.map (fun f =>
          if ds.any (fun d => f.path == d.path) then { f with existsFlag := false } else f) := by
  intro ds
  induction ds with
  | nil =>
      intro l _
      simp
  | cons d ds ih =>
      intro l hnd
      rw [List.foldl_cons]
      rw [markFileDeleted_eq_map d.path l hnd]
      have hnd2 : (l.map (fun f =>
          if f.path == d.path then { f with existsFlag := false } else f)).Pairwise
            (fun a b => a.path ≠ b.path) := by
        rw [List.pairwise_map]
        apply hnd.imp
        intro a b hab
        have ha : (if a.path == d.path then { a with existsFlag := false } else a).path
            = a.path := by split <;> rfl
        have hb : (if b.path == d.path then { b with existsFlag := false } else b).path
            = b.path := by split <;> rfl
        rw [ha, hb]
        exact hab
      rw [ih _ hnd2, List.map_map]
      apply List.map_congr_left
      intro f _
      show (fun f => if ds.any (fun d => f.path == d.path) then
          { f with existsFlag := false } else f)
        ((fun f => if f.path == d.path then { f with existsFlag := false } else f) f) =
        if (d :: ds).any (fun d => f.path == d.path) then { f with existsFlag := false } else f
      cases hfd : f.path == d.path with
      | true =>
          simp only [hfd, if_true, List.any_cons, Bool.true_or]
          split <;> rfl
      | false =>
          simp only [hfd, Bool.false_eq_true, if_false, List.any_cons, Bool.false_or]

/-- Claim C8: after `cleanupDeletedFiles`, the store keeps exactly the
symbols whose source file is not a tracked-but-deleted path (so no symbol
of a deleted file survives and symbols of existing files are untouched);
every tracking record survives, with `existsFlag` forced to false exactly
on the records whose path is gone from disk; and the state is persisted to
disk exactly once.  (The store is assumed to track each path at most once,
which `trackFile` maintains.) -/
theorem C8_cleanupDeletedFiles_purges (fsys : FS) (r : SymbolRegistry)
    (hnd : r.files.Pairwise (fun a b => a.path ≠ b.path)) :
    (cleanupDeletedFiles fsys r).symbols =
      r.symbols.filter (fun s =>
        (r.files.filter (fun f => (fsys f.path).isNone)).all (fun f => s.file != f.path)) ∧
    (cleanupDeletedFiles fsys r).files =
      r.files.map (fun f =>
        if (fsys f.path).isNone then { f with existsFlag := false } else f) ∧
    (cleanupDeletedFiles fsys r).writes = r.writes + 1 := by
  refine ⟨?_, ?_, ?_⟩
  · have hsy : (cleanupDeletedFiles fsys r).symbols =
        ((r.files.filter (fun f => (fsys f.path).isNone)).foldl cleanupStep r).symbols := rfl
    rw [hsy, cleanupFold_symbols, foldl_filter_symbols]
  · have hfi : (cleanupDeletedFiles fsys r).files =
        ((r.files.filter (fun f => (fsys f.path).isNone)).foldl cleanupStep r).files := rfl
    rw [hfi, cleanupFold_files, foldl_mark_files _ _ hnd]
    apply List.map_congr_left
    intro f hf
    have hcond : ((r.files.filter (fun f => (fsys f.path).isNone)).any
        (fun d => f.path == d.path)) = (fsys f.path).isNone := by
      cases hn : (fsys f.path).isNone with
      | true =>
          apply List.any_eq_true.mpr
          exact ⟨f, List.mem_filter.mpr ⟨hf, hn⟩, by simp⟩
      | false =>
          rw [List.any_eq_false]
          intro d hd hpd
          have hdn := (List.mem_filter.mp hd).2
          have hfd : f.path = d.path := by simpa using hpd
          rw [hfd, hdn] at hn
          simp at hn
    rw [hcond]
  · have hw : (cleanupDeletedFiles fsys r).writes =
        ((r.files.filter (fun f => (fsys f.path).isNone)).foldl cleanupStep r).writes + 1 := rfl
    rw [hw, cleanupFold_writes]

/-- Registry with one deleted and one surviving tracked file,
instantiating the C8 witness. -/
def rC8w : SymbolRegistry :=
  { symbols := [{ symbol := "A", type := "function", file := "/gone.ts" },
                { symbol := "B", type := "function", file := "/f.ts" }],
    files := [{ path := "/gone.ts", lastParsed := 1, lastModified := 1, existsFlag := true },
              { path := "/f.ts", lastParsed := 1, lastModified := 1, existsFlag := true }],
    lastFullRefresh := 0, writes := 0 }

/-- Claim C8, witness: the cleanup theorem applied to a concrete registry
in which `/gone.ts` has disappeared from disk — its symbol is purged while
`/f.ts` keeps its symbol. -/
theorem C8_cleanupDeletedFiles_purges_witness :
    (cleanupDeletedFiles (fun p => if p == "/f.ts" then some 5 else none) rC8w).symbols =
      rC8w.symbols.filter (fun s =>
        (rC8w.files.filter (fun f =>
          ((fun p => if p == "/f.ts" then some 5 else none) f.path).isNone)).all
            (fun f => s.file != f.path)) :=
  (C8_cleanupDeletedFiles_purges (fun p => if p == "/f.ts" then some 5 else none) rC8w
    (by simp [rC8w])).1

/-- The scan state after storing one more usage record (the else-branch of
the match loop). -/
def pushUsage (file : String) (lines : List String) (i col : Nat) (st : ScanState) : ScanState :=
  { usages := st.usages ++
      [{ file := file, line := i + 1, column := col + 1,
         snippet := snippetAt lines i, isDefinition := false }],
    totalFound := st.totalFound + 1,
    limitReached := st.limitReached }

lemma scanMatches_cons (file : String) (lines : List String) (i m col : Nat)
    (rest : List Nat) (st : ScanState) :
    scanMatches file lines i m (col :: rest) st =
      if st.usages.length ≥ m then
        { st with totalFound := st.totalFound + 1, limitReached := true }
      else scanMatches file lines i m rest (pushUsage file lines i col st) := rfl

lemma pushUsage_totalFound (file : String) (lines : List String) (i col : Nat)
    (st : ScanState) : (pushUsage file lines i col st).totalFound = st.totalFound + 1 := rfl

lemma pushUsage_len (file : String) (lines : List String) (i col : Nat) (st : ScanState) :
    (pushUsage file lines i col st).usages.length = st.usages.length + 1 := by
  simp [pushUsage]

lemma scanMatches_spec (file : String) (lines : List String) (i m : Nat) :
    ∀ (cols : List Nat) (st : ScanState), st.limitReached = false →
      st.usages.length ≤ m → st.usages.length ≤ st.totalFound →
      (scanMatches file lines i m cols st).usages.length ≤ m ∧
      (scanMatches file lines i m cols st).usages.length ≤
        (scanMatches file lines i m cols st).totalFound ∧
      ((scanMatches file lines i m cols st).limitReached = true →
        (scanMatches file lines i m cols st).usages.length = m ∧
        m < (scanMatches file lines i m cols st).totalFound) ∧
      ((scanMatches file lines i m cols st).limitReached = false →
        (scanMatches file lines i m cols st).usages.length + st.totalFound =
          st.usages.length + (scanMatches file lines i m cols st).totalFound) := by
  intro cols
  induction cols with
  | nil =>
      intro st h0 h1 h2
      rw [show scanMatches file lines i m [] st = st from rfl]
      refine ⟨h1, h2, ?_, fun _ => by omega⟩
      intro hl
      rw [h0] at hl
      simp at hl
  | cons col rest ih =>
      intro st h0 h1 h2
      rw [scanMatches_cons]
      by_cases hge : st.usages.length ≥ m
      · rw [if_pos hge]
        refine ⟨h1, by simp; omega, fun _ => ⟨by simp; omega, by simp; omega⟩, ?_⟩
        intro hl
        simp at hl
      · rw [if_neg hge]
        have hpush := ih (pushUsage file lines i col st) (by simp [pushUsage, h0])
          (by simp [pushUsage]; omega) (by simp [pushUsage]; omega)
        refine ⟨hpush.1, hpush.2.1, hpush.2.2.1, ?_⟩
        intro hl
        have h4 := hpush.2.2.2 hl
        rw [pushUsage_totalFound, pushUsage_len] at h4
        omega

lemma scanLines_cons (file : String) (allLines : List String) (matcher : String → List Nat)
    (m i : Nat) (line : String) (rest : List String) (st : ScanState) :
    scanLines file allLines matcher m i (line :: rest) st =
      (if (scanMatches file allLines i m (matcher line) st).limitReached then
        scanMatches file allLines i m (matcher line) st
      else
        scanLines file allLines matcher m (i + 1) rest
          (scanMatches file allLines i m (matcher line) st)) := rfl

lemma scanLines_spec (file : String) (allLines : List String) (matcher : String → List Nat)
    (m : Nat) :
    ∀ (rest : List String) (i : Nat) (st : ScanState), st.limitReached = false →
      st.usages.length ≤ m → st.usages.length ≤ st.totalFound →
      (scanLines file allLines matcher m i rest st).usages.length ≤ m ∧
      (scanLines file allLines matcher m i rest st).usages.length ≤
        (scanLines file allLines matcher m i rest st).totalFound ∧
      ((scanLines file allLines matcher m i rest st).limitReached = true →
        (scanLines file allLines matcher m i rest st).usages.length = m ∧
        m < (scanLines file allLines matcher m i rest st).totalFound) ∧
      ((scanLines file allLines matcher m i rest st).limitReached = false →
        (scanLines file allLines matcher m i rest st).usages.length + st.totalFound =
          st.usages.length + (scanLines file allLines matcher m i rest st).totalFound) := by
  intro rest
  induction rest with
  | nil =>
      intro i st h0 h1 h2
      rw [show scanLines file allLines matcher m i [] st = st from rfl]
      refine ⟨h1, h2, ?_, fun _ => by omega⟩
      intro hl
      rw [h0] at hl
      simp at hl
  | cons line rest ih =>
      intro i st h0 h1 h2
      rw [scanLines_cons]
      have hm2 := scanMatches_spec file allLines i m (matcher line) st h0 h1 h2
      cases hl2 : (scanMatches file allLines i m (matcher line) st).limitReached with
      | true =>
          rw [if_pos rfl]
          refine ⟨hm2.1, hm2.2.1, hm2.2.2.1, ?_⟩
          intro hl
          rw [hl2] at hl
          simp at hl
      | false =>
          rw [if_neg (by simp)]
          have hchain := hm2.2.2.2 hl2
          have hi := ih (i + 1) (scanMatches file allLines i m (matcher line) st) hl2
            hm2.1 hm2.2.1
          refine ⟨hi.1, hi.2.1, ?_, ?_⟩
          · intro hl
            have h3 := hi.2.2.1 hl
            exact h3
          · intro hl
            have h4 := hi.2.2.2 hl
            omega

lemma scanFiles_cons_none (symbolFile : String) (includeDefinition : Bool)
    (matcher : String → List Nat) (m : Nat) (file : String)
    (rest : List (String × Option (List String))) (st : ScanState) :
    scanFiles symbolFile includeDefinition matcher m ((file, none) :: rest) st =
      (if file == symbolFile && includeDefinition then
        scanFiles symbolFile includeDefinition matcher m rest st
      else if st.limitReached then st
      else scanFiles symbolFile includeDefinition matcher m rest st) := rfl

lemma scanFiles_cons_some (symbolFile : String) (includeDefinition : Bool)
    (matcher : String → List Nat) (m : Nat) (file : String) (lines : List String)
    (rest : List (String × Option (List String))) (st : ScanState) :
    scanFiles symbolFile includeDefinition matcher m ((file, some lines) :: rest) st =
      (if file == symbolFile && includeDefinition then
        scanFiles symbolFile includeDefinition matcher m rest st
      else if (scanLines file lines matcher m 0 lines st).limitReached then
        scanLines file lines matcher m 0 lines st
      else scanFiles symbolFile includeDefinition matcher m rest
        (scanLines file lines matcher m 0 lines st)) := rfl

lemma scanFiles_spec (symbolFile : String) (includeDefinition : Bool)
    (matcher : String → List Nat) (m : Nat) :
    ∀ (files : List (String × Option (List String))) (st : ScanState),
      st.limitReached = false →
      st.usages.length ≤ m → st.usages.length ≤ st.totalFound →
      (scanFiles symbolFile includeDefinition matcher m files st).usages.length ≤ m ∧
      (scanFiles symbolFile includeDefinition matcher m files st).usages.length ≤
        (scanFiles symbolFile includeDefinition matcher m files st).totalFound ∧
      ((scanFiles symbolFile includeDefinition matcher m files st).limitReached = true →
        (scanFiles symbolFile includeDefinition matcher m files st).usages.length = m ∧
        m < (scanFiles symbolFile includeDefinition matcher m files st).totalFound) ∧
      ((scanFiles symbolFile includeDefinition matcher m files st).limitReached = false →
        (scanFiles symbolFile includeDefinition matcher m files st).usages.length +
            st.totalFound =
          st.usages.length +
            (scanFiles symbolFile includeDefinition matcher m files st).totalFound) := by
  intro files
  induction files with
  | nil =>
      intro st h0 h1 h2
      rw [show scanFiles symbolFile includeDefinition matcher m [] st = st from rfl]
      refine ⟨h1, h2, ?_, fun _ => by omega⟩
      intro hl
      rw [h0] at hl
      simp at hl
  | cons pair rest ih =>
      obtain ⟨file, content⟩ := pair
      intro st h0 h1 h2
      cases content with
      | none =>
          rw [scanFiles_cons_none]
          by_cases hskip : (file == symbolFile && includeDefinition) = true
          · rw [if_pos hskip]
            exact ih st h0 h1 h2
          · rw [if_neg hskip, if_neg (by rw [h0]; simp)]
            exact ih st h0 h1 h2
      | some lines =>
          rw [scanFiles_cons_some]
          by_cases hskip : (file == symbolFile && includeDefinition) = true
          · rw [if_pos hskip]
            exact ih st h0 h1 h2
          · rw [if_neg hskip]
            have hm2 := scanLines_spec file lines matcher m lines 0 st h0 h1 h2
            cases hl2 : (scanLines file lines matcher m 0 lines st).limitReached with
            | true =>
                rw [if_pos rfl]
                refine ⟨hm2.1, hm2.2.1, hm2.2.2.1, ?_⟩
                intro hl
                rw [hl2] at hl
                simp at hl
            | false =>
                rw [if_neg (by simp)]
                have hchain := hm2.2.2.2 hl2
                have hi := ih (scanLines file lines matcher m 0 lines st) hl2 hm2.1 hm2.2.1
                refine ⟨hi.1, hi.2.1, hi.2.2.1, ?_⟩
                intro hl
                have h4 := hi.2.2.2 hl
                omega

lemma findDefScan_cons (symbolFile : String) (allLines : List String)
    (defMatcher : String → Option Nat) (i : Nat) (line : String) (rest : List String)
    (dl : Nat) (us : List UsageLocation) :
    findDefScan symbolFile allLines defMatcher i (line :: rest) dl us =
      (match defMatcher line with
       | some col =>
           if i > 0 then
             us ++ [{ file := symbolFile, line := i + 1, column := col + 1,
                      snippet := snippetAt allLines i, isDefinition := true }]
           else
             findDefScan symbolFile allLines defMatcher (i + 1) rest i
               (us ++ [{ file := symbolFile, line := i + 1, column := col + 1,
                         snippet := snippetAt allLines i, isDefinition := true }])
       | none =>
           if dl > 0 then us
           else findDefScan symbolFile allLines defMatcher (i + 1) rest dl us) := rfl

lemma findDefScan_len_pos (symbolFile : String) (allLines : List String)
    (defMatcher : String → Option Nat) :
    ∀ (rest : List String) (i dl : Nat) (us : List UsageLocation), 1 ≤ i →
      (findDefScan symbolFile allLines defMatcher i rest dl us).length ≤ us.length + 1 := by
  intro rest
  induction rest with
  | nil =>
      intro i dl us _
      rw [show findDefScan symbolFile allLines defMatcher i [] dl us = us from rfl]
      omega
  | cons line rest ih =>
      intro i dl us hi
      rw [findDefScan_cons]
      cases hdm : defMatcher line with
      | some col =>
          dsimp only
          rw [if_pos (by omega)]
          simp
      | none =>
          dsimp only
          by_cases hdl : dl > 0
          · rw [if_pos hdl]
            omega
          · rw [if_neg hdl]
            exact ih (i + 1) dl us (by omega)

lemma findDefScan_len_zero (symbolFile : String) (allLines : List String)
    (defMatcher : String → Option Nat) :
    ∀ (rest : List String) (dl : Nat) (us : List UsageLocation),
      (findDefScan symbolFile allLines defMatcher 0 rest dl us).length ≤ us.length + 2 := by
  intro rest dl us
  cases rest with
  | nil =>
      rw [show findDefScan symbolFile allLines defMatcher 0 [] dl us = us from rfl]
      omega
  | cons line rest =>
      rw [findDefScan_cons]
      cases hdm : defMatcher line with
      | some col =>
          dsimp only
          rw [if_neg (by omega)]
          refine le_trans
            (findDefScan_len_pos symbolFile allLines defMatcher rest _ _ _ (by omega)) ?_
          simp
      | none =>
          dsimp only
          by_cases hdl : dl > 0
          · rw [if_pos hdl]
            omega
          · rw [if_neg hdl]
            refine le_trans
              (findDefScan_len_pos symbolFile allLines defMatcher rest _ _ _ (by omega)) ?_
            omega

lemma defRecords_le_two (symbolFile : String) (defLines : Option (List String))
    (includeDefinition : Bool) (defMatcher : String → Option Nat) :
    (defRecords symbolFile defLines includeDefinition defMatcher).length ≤ 2 := by
  cases defLines with
  | none =>
      unfold defRecords
      split <;> simp
  | some lines =>
      unfold defRecords
      split
      · have h := findDefScan_len_zero symbolFile lines defMatcher lines 0 []
        simpa using h
      · simp

lemma scanMatches_ge (file : String) (lines : List String) (i m : Nat)
    (cols : List Nat) (st : ScanState) (h1 : m ≤ st.usages.length) :
    scanMatches file lines i m cols st = st ∨
      scanMatches file lines i m cols st =
        { st with totalFound := st.totalFound + 1, limitReached := true } := by
  cases cols with
  | nil => exact Or.inl rfl
  | cons col rest =>
      right
      rw [scanMatches_cons, if_pos h1]

lemma scanLines_ge (file : String) (allLines : List String) (matcher : String → List Nat)
    (m : Nat) :
    ∀ (rest : List String) (i : Nat) (st : ScanState),
      st.limitReached = false → m ≤ st.usages.length →
      scanLines file allLines matcher m i rest st = st ∨
        scanLines file allLines matcher m i rest st =
          { st with totalFound := st.totalFound + 1, limitReached := true } := by
  intro rest
  induction rest with
  | nil => intro i st _ _; exact Or.inl rfl
  | cons line rest ih =>
      intro i st h0 h1
      rw [scanLines_cons]
      rcases scanMatches_ge file allLines i m (matcher line) st h1 with h | h
      · rw [h, if_neg (by simp [h0])]
        exact ih (i + 1) st h0 h1
      · rw [h, if_pos rfl]
        right
        rfl

lemma scanFiles_ge (symbolFile : String) (includeDefinition : Bool)
    (matcher : String → List Nat) (m : Nat) :
    ∀ (files : List (String × Option (List String))) (st : ScanState),
      st.limitReached = false → m ≤ st.usages.length →
      scanFiles symbolFile includeDefinition matcher m files st = st ∨
        scanFiles symbolFile includeDefinition matcher m files st =
          { st with totalFound := st.totalFound + 1, limitReached := true } := by
  intro files
  induction files with
  | nil => intro st _ _; exact Or.inl rfl
  | cons pair rest ih =>
      obtain ⟨file, content⟩ := pair
      intro st h0 h1
      cases content with
      | none =>
          rw [scanFiles_cons_none]
          by_cases hskip : (file == symbolFile && includeDefinition) = true
          · rw [if_pos hskip]
            exact ih st h0 h1
          · rw [if_neg hskip, if_neg (by simp [h0])]
            exact ih st h0 h1
      | some lines =>
          rw [scanFiles_cons_some]
          by_cases hskip : (file == symbolFile && includeDefinition) = true
          · rw [if_pos hskip]
            exact ih st h0 h1
          · rw [if_neg hskip]
            rcases scanLines_ge file lines matcher m lines 0 st h0 h1 with h | h
            · rw [h, if_neg (by simp [h0])]
              exact ih st h0 h1
            · rw [h, if_pos rfl]
              right
              rfl

/-- Definition-file lines for the C9 counterexample: the heuristic
definition pattern matches on both line 0 and line 1. -/
def defLinesC9 : List String := ["add(", "add("]

/-- Definition-pattern oracle for the C9 counterexample lines. -/
def dmC9 : String → Option Nat := fun line => if line == "add(" then some 0 else none

/-- File list for the C9 reference scan: one readable file whose two lines
carry three matches in total. -/
def filesC9 : List (String × Option (List String)) := [("a.ts", some ["x x", "x"])]

/-- Match columns of the word-boundary regex for the C9 scan lines. -/
def matchC9 : String → List Nat :=
  fun line => if line == "x x" then [0, 2] else if line == "x" then [0] else []

/-- Claim C9, counterexample: with `maxResults = 1` and a definition file
whose lines 0 and 1 both match the definition heuristic, the
`definitionLine > 0` sentinel does not break on the line-0 match, two
definition records are stored, and the call returns 2 usages (with
`limitReached = true` once a reference match is met) — more than the
claimed at-most-m cap of 1. -/
theorem C9_counterexample_two_records_returned :
    (findUsagesModel "def.ts" (some defLinesC9) true dmC9 matchC9 filesC9 1).usages.length = 2 ∧
    (findUsagesModel "def.ts" (some defLinesC9) true dmC9 matchC9 filesC9 1).limitReached
      = true ∧
    ¬ ((2 : Nat) ≤ 1) := by
  refine ⟨?_, ?_, ?_⟩
  · decide
  · decide
  · decide

/-- Claim C9, amended: for `maxResults = m ≥ 1`, the definition step
stores at most two records (the line-0 sentinel flaw allows a second one),
the reference scan appends nothing once m usages are stored, so the
returned array holds at most max(m, d) records where d is the
definition-record count; when the scan stops early exactly max(m, d)
records are stored and `totalFound` strictly exceeds the stored count (the
triggering match was counted but not stored); when the limit flag never
goes up every counted match is stored (`usages.length = totalFound`). -/
theorem C9_amended_findUsages_cap (symbolFile : String) (defLines : Option (List String))
    (includeDefinition : Bool) (defMatcher : String → Option Nat)
    (matcher : String → List Nat) (files : List (String × Option (List String)))
    (m : Nat) (hm : 1 ≤ m) :
    (defRecords symbolFile defLines includeDefinition defMatcher).length ≤ 2 ∧
    (findUsagesModel symbolFile defLines includeDefinition defMatcher matcher files
        m).usages.length ≤
      max m (defRecords symbolFile defLines includeDefinition defMatcher).length ∧
    ((findUsagesModel symbolFile defLines includeDefinition defMatcher matcher files
        m).limitReached = true →
      (findUsagesModel symbolFile defLines includeDefinition defMatcher matcher files
          m).usages.length =
        max m (defRecords symbolFile defLines includeDefinition defMatcher).length ∧
      (findUsagesModel symbolFile defLines includeDefinition defMatcher matcher files
          m).usages.length <
        (findUsagesModel symbolFile defLines includeDefinition defMatcher matcher files
          m).totalFound) ∧
    ((findUsagesModel symbolFile defLines includeDefinition defMatcher matcher files
        m).limitReached = false →
      (findUsagesModel symbolFile defLines includeDefinition defMatcher matcher files
          m).usages.length =
        (findUsagesModel symbolFile defLines includeDefinition defMatcher matcher files
          m).totalFound) := by
  have hd2 := defRecords_le_two symbolFile defLines includeDefinition defMatcher
  have hres : findUsagesModel symbolFile defLines includeDefinition defMatcher matcher
      files m =
      scanFiles symbolFile includeDefinition matcher m files
        { usages := defRecords symbolFile defLines includeDefinition defMatcher,
          totalFound := (defRecords symbolFile defLines includeDefinition defMatcher).length,
          limitReached := false } := rfl
  rw [hres]
  by_cases hdm : (defRecords symbolFile defLines includeDefinition defMatcher).length ≤ m
  · have hs := scanFiles_spec symbolFile includeDefinition matcher m files
      { usages := defRecords symbolFile defLines includeDefinition defMatcher,
        totalFound := (defRecords symbolFile defLines includeDefinition defMatcher).length,
        limitReached := false } rfl hdm (Nat.le_of_eq rfl)
    refine ⟨hd2, le_trans hs.1 (Nat.le_max_left m _), ?_, ?_⟩
    · intro hl
      have h3 := hs.2.2.1 hl
      refine ⟨?_, ?_⟩
      · rw [h3.1, Nat.max_eq_left hdm]
      · rw [h3.1]
        exact h3.2
    · intro hl
      have h4 := hs.2.2.2 hl
      dsimp only at h4
      omega
  · have hge := scanFiles_ge symbolFile includeDefinition matcher m files
      { usages := defRecords symbolFile defLines includeDefinition defMatcher,
        totalFound := (defRecords symbolFile defLines includeDefinition defMatcher).length,
        limitReached := false } rfl ((Nat.not_le.mp hdm).le)
    rcases hge with h | h
    · rw [h]
      refine ⟨hd2, Nat.le_max_right m _, ?_, fun _ => rfl⟩
      intro hl
      simp at hl
    · rw [h]
      refine ⟨hd2, Nat.le_max_right m _, ?_, ?_⟩
      · intro _
        refine ⟨?_, ?_⟩
        · rw [Nat.max_eq_right (by omega)]
        · exact Nat.lt_succ_self _
      · intro hl
        simp at hl

/-- Claim C9, witness: the amended cap theorem applied to the
counterexample inputs — with two definition records and m = 1 the result
stays within max(1, 2) = 2 records. -/
theorem C9_amended_findUsages_cap_witness :
    (findUsagesModel "def.ts" (some defLinesC9) true dmC9 matchC9 filesC9
        1).usages.length ≤
      max 1 (defRecords "def.ts" (some defLinesC9) true dmC9).length ∧
    (defRecords "def.ts" (some defLinesC9) true dmC9).length = 2 := by
  refine ⟨(C9_amended_findUsages_cap "def.ts" (some defLinesC9) true dmC9 matchC9 filesC9 1
    (by decide)).2.1, ?_⟩
  decide

/-- Claim C10: every symbol synthesized for a class (the class itself and
every method and property, regardless of the member's own visibility)
carries `exported` equal to the class's flag, and likewise for interfaces;
consequently every member of an exported class is truthy-exported and thus
lands in the exported tier of the search ranking. -/
theorem C10_members_inherit_container_export (filePath : String) (cls : ClassDoc)
    (iface : InterfaceDoc) :
    (∀ s ∈ classSymbols filePath cls, s.exported = JsField.val cls.exported) ∧
    (∀ s ∈ interfaceSymbols filePath iface, s.exported = JsField.val iface.exported) ∧
    (cls.exported = true → ∀ s ∈ classSymbols filePath cls, s.exported.truthy = true) := by
  have h1 : ∀ s ∈ classSymbols filePath cls, s.exported = JsField.val cls.exported := by
    intro s hs
    unfold classSymbols at hs
    simp only [List.mem_cons, List.mem_append, List.mem_map] at hs
    rcases hs with rfl | ⟨mth, _, rfl⟩ | ⟨prop, _, rfl⟩ <;> rfl
  refine ⟨h1, ?_, ?_⟩
  · intro s hs
    unfold interfaceSymbols at hs
    simp only [List.mem_cons, List.mem_append, List.mem_map] at hs
    rcases hs with rfl | ⟨prop, _, rfl⟩ | ⟨mth, _, rfl⟩ <;> rfl
  · intro hex s hs
    rw [h1 s hs, hex]
    rfl

/-- Exported class with one private method, instantiating the C10
witness. -/
def clsC10 : ClassDoc :=
  { name := "K", exported := true, properties := [],
    methods := [{ name := "secret", params := [], visibility := some "private" }] }

/-- Empty interface for the C10 witness instantiation. -/
def ifaceC10 : InterfaceDoc :=
  { name := "I", exported := false, properties := [], methods := [] }

/-- The symbol `registerFileSymbols` synthesizes for the private method of
the exported class `clsC10`. -/
def symC10 : SymbolInfo :=
  { symbol := "secret", type := "method", file := "/a.ts", description := .undef,
    signature := .val "()", parentSymbol := .val "K", exported := .val true,
    metadata := .val { visibility := .val "private" } }

/-- Claim C10, witness: the private method of the exported class is
registered with `exported = true`. -/
theorem C10_members_inherit_container_export_witness :
    symC10.exported = JsField.val true :=
  (C10_members_inherit_container_export "/a.ts" clsC10 ifaceC10).1 symC10 (by decide)
